import Mathlib

/-!
# Uptane fetcher: chunk handler, pause coordination and target download

A shallow embedding of `src/libaktualizr/uptane/fetcher.cc`
(`DownloadHandler`, `Fetcher::setPause`, `Fetcher::checkPause`,
`Fetcher::fetchVerifyTarget`) together with the properties established about it.

Conventions of the embedding.

* `uint64_t` / `size_t` values are natural numbers; every arithmetic result the
  source stores in such a variable is reduced with `u64`, and the
  `static_cast<unsigned int>` of the progress value with `u32`.
* Undefined behaviour of the C++ code (division by zero, use of a released
  `fhandle`) makes the embedded function return `none` / `Status.undefined`.
* The second thread that may call `setPause` while a download runs is part of the
  scripted environment: each script step lists the `setPause` requests that are
  served before the worker reads the pause flag at that step.
* Collaborators whose code is not part of `fetcher.cc` (storage handles, the HTTP
  transport, the hashers, the event channel, the OSTree puller) are modelled from
  the specification; each such definition says so.
-/

namespace Uptane

/-! ## Machine integers -/

/-- Reduction of a natural number to the range of `uint64_t` / `size_t`. -/
def u64 (x : Nat) : Nat := x % 18446744073709551616

/-- Reduction of a natural number to the range of `unsigned int`. -/
def u32 (x : Nat) : Nat := x % 4294967296

/-! ## Data model -/

/-- One byte of payload (`unsigned char`); only sequences of bytes matter here. -/
abbrev Byte := Nat

/-- The hash algorithms of `Hash::Type` that a hasher exists for. -/
inductive HashType where
  | kSha256
  | kSha512
  deriving DecidableEq, Repr

/-- A declared or computed digest: algorithm and hex digest. -/
structure Hash where
  type : HashType
  hash : String
  deriving DecidableEq, Repr

/-- The target descriptor: the accessors `filename()`, `length()`, `hashes()`,
`IsOstree()` used by the fetcher. -/
structure Target where
  filename : String
  length : Nat
  hashes : List Hash
  IsOstree : Bool
  deriving DecidableEq, Repr

/-- Modelled from the spec: `Target::MatchWith` (defined outside `fetcher.cc`):
the computed hash agrees with one of the declared hashes of the target. -/
def Target.MatchWith (t : Target) (h : Hash) : Bool := decide (h ∈ t.hashes)

/-- The values of `PauseResult`. -/
inductive PauseResult where
  | kPaused
  | kResumed
  | kAlreadyPaused
  | kNotPaused
  | kNotDownloading
  deriving DecidableEq, Repr

/-- The events the fetcher hands to the event channel. -/
inductive Event where
  | DownloadPaused (result : PauseResult)
  | DownloadResumed (result : PauseResult)
  | DownloadProgressReport (target : String) (progress : Nat)
  deriving DecidableEq, Repr

/-- Observable actions of the fetcher on its collaborators, in the order in which
they happen. -/
inductive Action where
  | sendEvent (e : Event)
  | checkTargetFile
  | allocateTargetFile
  | openTargetFile
  | wcommit
  | wabort
  | httpDownload (url : String) (offset : Nat)
  | ostreePull
  deriving DecidableEq, Repr

/-- The actions that use the network: the streaming download of the transport and
the OSTree pull. -/
def Action.isNetwork : Action → Bool
  | Action.httpDownload _ _ => true
  | Action.ostreePull => true
  | _ => false

/-- The actions that create or open a write handle. -/
def Action.isHandleOpen : Action → Bool
  | Action.allocateTargetFile => true
  | Action.openTargetFile => true
  | _ => false

/-- The percentage carried by a progress event, if the action is one. -/
def Action.progress? : Action → Option Nat
  | Action.sendEvent (Event.DownloadProgressReport _ p) => some p
  | _ => none

/-- The percentages of the `DownloadProgressReport` events of a trace, in order. -/
def progressOf (tr : List Action) : List Nat := tr.filterMap Action.progress?

/-- The members of `Fetcher` that the modelled functions read or write:
`pause_`, `downloading_`, `retry_` and whether `events_channel` is non-null. -/
structure Fetcher where
  pause_ : Bool
  downloading_ : Nat
  retry_ : Bool
  events_channel : Bool
  deriving DecidableEq, Repr

/-! ## Collaborators -/

/-- Modelled from the spec: `MultiPartHasher` (declared outside `fetcher.cc`), the
streaming hash accumulator with `update` and `getHexDigest`. -/
structure MultiPartHasher (σ : Type) where
  init : σ
  update : σ → List Byte → σ
  getHexDigest : σ → String

/-- The streaming contract of a hasher: feeding nothing changes nothing, and
feeding two pieces one after the other is feeding their concatenation. -/
def MultiPartHasher.Lawful {σ : Type} (H : MultiPartHasher σ) : Prop :=
  (∀ s, H.update s [] = s) ∧ (∀ s a b, H.update (H.update s a) b = H.update s (a ++ b))

/-- The digest a hasher gives to a byte string hashed in one piece. -/
def MultiPartHasher.digest {σ : Type} (H : MultiPartHasher σ) (bytes : List Byte) : String :=
  H.getHexDigest (H.update H.init bytes)

/-- Modelled from the spec: the file that storage holds for the one target under
consideration (`none`: no file). -/
abbrev Storage := Option (List Byte)

/-- Modelled from the spec: `StorageTargetWHandle` (declared outside `fetcher.cc`).
A handle is opened on top of the bytes already stored (`base`) and collects the
bytes fed to it (`written`); they reach storage on `wcommit` and are dropped on
`wabort` or when the handle is destroyed. -/
structure StorageTargetWHandle where
  base : List Byte
  written : List Byte
  deriving DecidableEq, Repr

/-- Modelled from the spec: `wfeed` takes the first `min accept n` bytes of the
buffer and returns how many it took (`accept` is the behaviour of storage). -/
def StorageTargetWHandle.wfeed (h : StorageTargetWHandle) (buf : List Byte) (accept : Nat) :
    StorageTargetWHandle × Nat :=
  ({ h with written := h.written ++ buf.take (min accept buf.length) }, min accept buf.length)

/-- Modelled from the spec: `wcommit` makes the bytes of the handle the stored file. -/
def StorageTargetWHandle.wcommit (h : StorageTargetWHandle) : Storage :=
  some (h.base ++ h.written)

/-- Modelled from the spec: `wabort` discards what was written through the handle
and leaves storage as it is. -/
def StorageTargetWHandle.wabort (_h : StorageTargetWHandle) (st : Storage) : Storage := st

/-- Modelled from the spec: `storage->checkTargetFile(target)`; the second
component of its result, the length of the stored file. -/
def checkTargetFile (st : Storage) : Option Nat := st.map List.length

/-- Modelled from the spec: `storage->allocateTargetFile(false, target)`. -/
def allocateTargetFile : StorageTargetWHandle := { base := [], written := [] }

/-- Modelled from the spec: `storage->openTargetFile(target)->toWriteHandle()`, a
handle that appends to the stored bytes (to nothing when no file is stored). -/
def openTargetFile (st : Storage) : StorageTargetWHandle :=
  { base := st.getD [], written := [] }

/-- Modelled from the spec: the transport response (`HttpResponse`, declared
outside `fetcher.cc`): `isOk()` and `curl_code`. -/
structure HttpResponse where
  isOk : Bool
  curl_code : Nat
  deriving DecidableEq, Repr

/-- The libcurl code `CURLE_WRITE_ERROR`. -/
def CURLE_WRITE_ERROR : Nat := 23

/-- Modelled from the spec: the response of a transfer that the write callback
aborted by returning a value different from the chunk size. -/
def writeErrorResponse : HttpResponse := { isOk := false, curl_code := CURLE_WRITE_ERROR }

/-- Result codes of the OSTree pull, as far as the fetcher distinguishes them. -/
inductive UpdateResultCode where
  | kOk
  | kAlreadyProcessed
  | kInstallFailed
  deriving DecidableEq, Repr

/-- What is fixed for a fetcher: the hashers, the configured repository server,
`Utils::urlEncode`, and whether the build defines `BUILD_OSTREE`. -/
structure Env (σ : Type) where
  hasher : HashType → MultiPartHasher σ
  repo_server : String
  urlEncode : String → String
  BUILD_OSTREE : Bool

/-- One invocation of the write callback during a transfer: the `setPause`
requests the controller thread gets served before the callback reads the pause
flag, the bytes of the chunk, and how many bytes the write handle accepts. -/
structure Chunk where
  ctl : List Bool
  contents : List Byte
  accept : Nat
  deriving DecidableEq, Repr

/-- One iteration of the retry loop as the environment shapes it: the `setPause`
requests served while the worker is in `checkPause`, the chunks the transport
delivers, and the response of the transport when no callback aborts. -/
structure Attempt where
  wait : List Bool
  chunks : List Chunk
  response : HttpResponse
  deriving DecidableEq, Repr

/-- The behaviour of the collaborators during one call of `fetchVerifyTarget`. -/
structure Script where
  attempts : List Attempt
  pull : UpdateResultCode
  deriving DecidableEq, Repr

/-! ## Fetcher::setPause -/

/-- The function `Fetcher::setPause`: the result, the fetcher afterwards and the
events sent. -/
def Fetcher.setPause (f : Fetcher) (pause : Bool) : PauseResult × Fetcher × List Action :=
  if f.pause_ = pause then
    if pause then
      (PauseResult.kAlreadyPaused, f,
        [Action.sendEvent (Event.DownloadPaused PauseResult.kAlreadyPaused)])
    else
      (PauseResult.kNotPaused, f,
        [Action.sendEvent (Event.DownloadResumed PauseResult.kNotPaused)])
  else if pause && decide (f.downloading_ = 0) then
    (PauseResult.kNotDownloading, f,
      [Action.sendEvent (Event.DownloadPaused PauseResult.kNotDownloading)])
  else
    if pause then
      (PauseResult.kPaused, { f with pause_ := pause },
        [Action.sendEvent (Event.DownloadPaused PauseResult.kPaused)])
    else
      (PauseResult.kResumed, { f with pause_ := pause },
        [Action.sendEvent (Event.DownloadResumed PauseResult.kResumed)])

/-- The controller thread serving a list of `setPause` requests in order. -/
def applyCtl (f : Fetcher) : List Bool → Fetcher × List Action
  | [] => (f, [])
  | p :: ps =>
    let r := f.setPause p
    let rest := applyCtl r.2.1 ps
    (rest.1, r.2.2 ++ rest.2)

/-! ## The download session and the chunk handler -/

/-- The session `DownloadMetaStruct` (declared outside `fetcher.cc`): the fields the
handler and the orchestrator use. `fhandle = none` is the released `unique_ptr`. -/
structure DownloadMetaStruct (σ : Type) where
  downloaded_length : Nat
  last_progress : Nat
  fhandle : Option StorageTargetWHandle
  hash_type : HashType
  hasher : σ
  events_channel : Bool
  target : Target

/-- Modelled from the spec: the constructor `DownloadMetaStruct(target, events_channel)`:
counters at zero, no handle yet, and a fresh hasher for the algorithm of a declared
hash of the target (the first one). -/
def DownloadMetaStruct.new {σ : Type} (E : Env σ) (target : Target) (events_channel : Bool) :
    DownloadMetaStruct σ :=
  let ty := (target.hashes.head?.map Hash.type).getD HashType.kSha256
  { downloaded_length := 0
    last_progress := 0
    fhandle := none
    hash_type := ty
    hasher := (E.hasher ty).init
    events_channel := events_channel
    target := target }

/-- What one call of the chunk handler leaves behind: its return value, the
session, the fetcher, storage, and the actions it performed. -/
structure HandlerResult (σ : Type) where
  ret : Nat
  ds : DownloadMetaStruct σ
  fetcher : Fetcher
  storage : Storage
  actions : List Action

/-- The progress value of the handler:
`static_cast<unsigned int>((downloaded_length * 100) / expected)` in 64-bit
unsigned arithmetic (for `expected` different from zero). -/
def progressValue (downloaded_length expected : Nat) : Nat :=
  u32 (u64 (downloaded_length * 100) / expected)

/-- The function `DownloadHandler` on a chunk `contents` (of `size * nmemb` bytes);
`accept` is the number of bytes the write handle is willing to take. The result
is `none` where the C++ code has undefined behaviour: `fhandle` released, or
`expected = 0` in the division. -/
def DownloadHandler {σ : Type} (E : Env σ) (contents : List Byte) (accept : Nat)
    (ds : DownloadMetaStruct σ) (f : Fetcher) (st : Storage) : Option (HandlerResult σ) :=
  let downloaded := contents.length
  let expected := ds.target.length
  if u64 (ds.downloaded_length + downloaded) > expected then
    some { ret := u64 (downloaded + 1), ds := ds, fetcher := f, storage := st, actions := [] }
  else
    match ds.fhandle with
    | none => none
    | some h =>
      let fed := h.wfeed contents accept
      let written_size := fed.2
      let hasher1 := (E.hasher ds.hash_type).update ds.hasher (contents.take written_size)
      let dl := u64 (ds.downloaded_length + downloaded)
      if expected = 0 then none
      else
        let progress := progressValue dl expected
        let report := ds.events_channel && decide (progress > ds.last_progress)
        let last := if report then progress else ds.last_progress
        let evs :=
          if report then
            [Action.sendEvent (Event.DownloadProgressReport ds.target.filename progress)]
          else []
        if f.pause_ then
          some { ret := u64 (written_size + 1)
                 ds := { ds with downloaded_length := dl, last_progress := last,
                                 hasher := hasher1, fhandle := none }
                 fetcher := { f with retry_ := true }
                 storage := fed.1.wcommit
                 actions := evs ++ [Action.wcommit] }
        else
          some { ret := written_size
                 ds := { ds with downloaded_length := dl, last_progress := last,
                                 hasher := hasher1, fhandle := some fed.1 }
                 fetcher := f
                 storage := st
                 actions := evs }

/-! ## The transport and the retry loop -/

/-- The state that a transfer and the retry loop thread through, with the actions
performed so far. -/
structure LoopState (σ : Type) where
  ds : DownloadMetaStruct σ
  fetcher : Fetcher
  storage : Storage
  trace : List Action

/-- Modelled from the spec: `http->download(url, DownloadHandler, &ds, offset)`. The
transport calls the handler on each chunk in turn; as soon as the handler returns
a value different from the chunk size the transfer is aborted with a write error;
when all chunks are taken the response is the one of the script. The response is
`none` when a handler call has undefined behaviour. -/
def transfer {σ : Type} (E : Env σ) (response : HttpResponse) :
    List Chunk → LoopState σ → Option HttpResponse × LoopState σ
  | [], s => (some response, s)
  | c :: cs, s =>
    let ctl := applyCtl s.fetcher c.ctl
    match DownloadHandler E c.contents c.accept s.ds ctl.1 s.storage with
    | none => (none, { s with fetcher := ctl.1, trace := s.trace ++ ctl.2 })
    | some r =>
      let s1 : LoopState σ :=
        { ds := r.ds, fetcher := r.fetcher, storage := r.storage,
          trace := s.trace ++ ctl.2 ++ r.actions }
      if r.ret = c.contents.length then transfer E response cs s1
      else (some writeErrorResponse, s1)

/-- How a call ends: it returned a result, it has not returned within the scripted
behaviour (parked in `checkPause`, or still in the retry loop), or it ran into
undefined behaviour. -/
inductive Status where
  | returned (result : Bool)
  | pending
  | undefined
  deriving DecidableEq, Repr

/-- How the retry loop ends. -/
inductive LoopExit where
  | done (response : HttpResponse)
  | pending
  | undefined
  deriving DecidableEq, Repr

/-- The URL of the artifact. -/
def targetUrl {σ : Type} (E : Env σ) (target : Target) : String :=
  E.repo_server ++ "/targets/" ++ E.urlEncode target.filename

/-- The loop `do ... while (retry_)` of `fetchVerifyTarget`, one scripted attempt
per iteration: `checkPause()` (the worker stays parked when the flag is still set
after the scripted requests), reopening of the handle when `retry_` is set, and
the transfer. -/
def retryLoop {σ : Type} (E : Env σ) : List Attempt → LoopState σ → LoopExit × LoopState σ
  | [], s => (LoopExit.pending, s)
  | a :: rest, s =>
    let ctl := applyCtl s.fetcher a.wait
    let s0 : LoopState σ := { s with fetcher := ctl.1, trace := s.trace ++ ctl.2 }
    if s0.fetcher.pause_ then (LoopExit.pending, s0)
    else
      let s1 : LoopState σ :=
        if s0.fetcher.retry_ then
          { s0 with fetcher := { s0.fetcher with retry_ := false }
                    ds := { s0.ds with fhandle := some (openTargetFile s0.storage) }
                    trace := s0.trace ++ [Action.openTargetFile] }
        else s0
      let s2 : LoopState σ :=
        { s1 with trace :=
            s1.trace ++ [Action.httpDownload (targetUrl E s1.ds.target) s1.ds.downloaded_length] }
      match transfer E a.response a.chunks s2 with
      | (none, s3) => (LoopExit.undefined, s3)
      | (some resp, s3) =>
        if s3.fetcher.retry_ then retryLoop E rest s3
        else (LoopExit.done resp, s3)

/-! ## Fetcher::fetchVerifyTarget -/

/-- The session as `fetchVerifyTarget` sets it up before the retry loop: a fresh
handle when storage has no file, otherwise a handle on the stored file with the
counter set to the stored length and the hasher fed with the stored bytes. -/
def setupSession {σ : Type} (E : Env σ) (target : Target) (events_channel : Bool)
    (st : Storage) : DownloadMetaStruct σ × List Action :=
  let ds := DownloadMetaStruct.new E target events_channel
  match st with
  | none => ({ ds with fhandle := some allocateTargetFile }, [Action.allocateTargetFile])
  | some stored =>
    ({ ds with downloaded_length := stored.length
               fhandle := some (openTargetFile st)
               hasher := (E.hasher ds.hash_type).update ds.hasher (stored.take stored.length) },
     [Action.openTargetFile])

/-- The result of a call: how it ended, the fetcher and storage afterwards, and the
actions performed. -/
structure Outcome where
  status : Status
  fetcher : Fetcher
  storage : Storage
  trace : List Action
  deriving DecidableEq, Repr

/-- Modelled from the spec: the destructor of `DownloadCounter` (declared outside
`fetcher.cc`), run on every return. -/
def endDownload (f : Fetcher) : Fetcher := { f with downloading_ := f.downloading_ - 1 }

/-- Modelled from the spec: the constructor of `DownloadCounter`. -/
def beginDownload (f : Fetcher) : Fetcher := { f with downloading_ := f.downloading_ + 1 }

/-- The code of `fetchVerifyTarget` after the retry loop: the response is
interpreted, the hash compared, the write committed or aborted. A thrown
`Exception` is caught at the end of the function and gives `false`. -/
def finishDownload {σ : Type} (E : Env σ) (target : Target) (resp : HttpResponse)
    (s : LoopState σ) : Outcome :=
  if !resp.isOk then
    { status := Status.returned false, fetcher := endDownload s.fetcher,
      storage := s.storage, trace := s.trace }
  else
    match s.ds.fhandle with
    | none =>
      { status := Status.undefined, fetcher := s.fetcher, storage := s.storage, trace := s.trace }
    | some h =>
      if !target.MatchWith
          { type := s.ds.hash_type,
            hash := (E.hasher s.ds.hash_type).getHexDigest s.ds.hasher } then
        { status := Status.returned false, fetcher := endDownload s.fetcher,
          storage := h.wabort s.storage, trace := s.trace ++ [Action.wabort] }
      else
        { status := Status.returned true, fetcher := endDownload s.fetcher,
          storage := h.wcommit, trace := s.trace ++ [Action.wcommit] }

/-- The state in which `fetchVerifyTarget` enters the retry loop: the session set up
from storage, the fetcher with the download counted, and the storage queries made. -/
def startState {σ : Type} (E : Env σ) (target : Target) (f : Fetcher) (st : Storage) :
    LoopState σ :=
  let su := setupSession E target (beginDownload f).events_channel st
  { ds := su.1, fetcher := beginDownload f, storage := st,
    trace := Action.checkTargetFile :: su.2 }

/-- The end of `fetchVerifyTarget` for each way the retry loop can end. -/
def loopOutcome {σ : Type} (E : Env σ) (target : Target) :
    LoopExit × LoopState σ → Outcome
  | (LoopExit.done resp, s1) => finishDownload E target resp s1
  | (LoopExit.pending, s1) =>
    { status := Status.pending, fetcher := s1.fetcher, storage := s1.storage, trace := s1.trace }
  | (LoopExit.undefined, s1) =>
    { status := Status.undefined, fetcher := s1.fetcher, storage := s1.storage,
      trace := s1.trace }

/-- The function `Fetcher::fetchVerifyTarget` on a fetcher `f` and storage `st`,
with the behaviour of the collaborators given by `script`. -/
def fetchVerifyTarget {σ : Type} (E : Env σ) (target : Target) (script : Script)
    (f : Fetcher) (st : Storage) : Outcome :=
  if !target.IsOstree then
    if target.hashes.isEmpty then
      { status := Status.returned false, fetcher := endDownload (beginDownload f),
        storage := st, trace := [] }
    else if checkTargetFile st = some target.length then
      { status := Status.returned true, fetcher := endDownload (beginDownload f),
        storage := st, trace := [Action.checkTargetFile] }
    else
      loopOutcome E target (retryLoop E script.attempts (startState E target f st))
  else if E.BUILD_OSTREE then
    { status := Status.returned
        (decide (script.pull = UpdateResultCode.kOk ∨
                 script.pull = UpdateResultCode.kAlreadyProcessed)),
      fetcher := endDownload (beginDownload f), storage := st, trace := [Action.ostreePull] }
  else
    { status := Status.returned false, fetcher := endDownload (beginDownload f),
      storage := st, trace := [] }

/-! ## Concrete instances used to exercise the statements -/

/-- A toy streaming hasher: the state is the sum of the bytes fed so far and the
digest tells whether that sum is even. -/
def demoHasher : MultiPartHasher Nat :=
  { init := 0
    update := fun s bs => s + bs.sum
    getHexDigest := fun s => if s % 2 = 0 then "00" else "01" }

/-- An environment with the toy hasher, built with OSTree support. -/
def demoEnv : Env Nat :=
  { hasher := fun _ => demoHasher
    repo_server := "https://repo"
    urlEncode := fun s => s
    BUILD_OSTREE := true }

/-- A discrete-file target of four bytes whose declared digest is that of an even
byte sum. -/
def demoTarget : Target :=
  { filename := "firmware.bin", length := 4,
    hashes := [{ type := HashType.kSha256, hash := "00" }], IsOstree := false }

/-- An idle fetcher with an event channel. -/
def demoFetcher : Fetcher :=
  { pause_ := false, downloading_ := 0, retry_ := false, events_channel := true }

/-- A successful transport response. -/
def okResponse : HttpResponse := { isOk := true, curl_code := 0 }

/-- A chunk that is delivered with no pause request around and written in full. -/
def plainChunk (contents : List Byte) : Chunk :=
  { ctl := [], contents := contents, accept := contents.length }

/-- A fetcher with a download in flight on which a pause has been requested. -/
def pausedFetcher : Fetcher :=
  { pause_ := true, downloading_ := 1, retry_ := false, events_channel := true }

/-- A fetcher with a download in flight and no pause requested. -/
def busyFetcher : Fetcher :=
  { pause_ := false, downloading_ := 1, retry_ := false, events_channel := true }

/-- A discrete-file target of declared length zero. -/
def emptyTarget : Target :=
  { filename := "firmware.bin", length := 0,
    hashes := [{ type := HashType.kSha256, hash := "00" }], IsOstree := false }

/-- A script in which the transport delivers nothing. -/
def emptyScript : Script := { attempts := [], pull := UpdateResultCode.kOk }

/-- A script with one attempt that delivers the given chunks and succeeds. -/
def oneAttempt (chunks : List Chunk) : Script :=
  { attempts := [{ wait := [], chunks := chunks, response := okResponse }],
    pull := UpdateResultCode.kOk }

/-- A transport response that reports a failure other than a write error. -/
def failedResponse : HttpResponse := { isOk := false, curl_code := 22 }

/-- A script in which all four bytes arrive in one chunk during which a pause is
granted, and the retry after the resume fails. -/
def pausedAtLastChunk : Script :=
  { attempts :=
      [{ wait := [], chunks := [{ ctl := [true], contents := [1, 1, 1, 2], accept := 4 }],
         response := okResponse },
       { wait := [false], chunks := [], response := failedResponse }],
    pull := UpdateResultCode.kOk }

/-! ## Derived notions used in the statements and proofs -/

/-- The actions that are a `DownloadPaused` or `DownloadResumed` event. -/
def Action.isPauseEvent : Action → Bool
  | Action.sendEvent (Event.DownloadPaused _) => true
  | Action.sendEvent (Event.DownloadResumed _) => true
  | _ => false


/-- The session after a chunk that passed the size check, with `fh` as its handle. -/
def acceptedSession {σ : Type} (E : Env σ) (contents : List Byte) (accept : Nat)
    (ds : DownloadMetaStruct σ) (fh : Option StorageTargetWHandle) : DownloadMetaStruct σ :=
  let dl := u64 (ds.downloaded_length + contents.length)
  let progress := progressValue dl ds.target.length
  { ds with
    downloaded_length := dl
    last_progress :=
      if (ds.events_channel && decide (progress > ds.last_progress)) = true then progress
      else ds.last_progress
    hasher := (E.hasher ds.hash_type).update ds.hasher (contents.take (min accept contents.length))
    fhandle := fh }

/-- The progress event, if any, of a chunk that passed the size check. -/
def acceptedEvents {σ : Type} (contents : List Byte) (ds : DownloadMetaStruct σ) : List Action :=
  let dl := u64 (ds.downloaded_length + contents.length)
  let progress := progressValue dl ds.target.length
  if (ds.events_channel && decide (progress > ds.last_progress)) = true then
    [Action.sendEvent (Event.DownloadProgressReport ds.target.filename progress)]
  else []

/-- The progress events sent since a state `s0` are strictly increasing, above the
last progress of `s0`, and at most the last progress of the current state. -/
def ProgressSince {σ : Type} (s0 s : LoopState σ) : Prop :=
  ∃ new, s.trace = s0.trace ++ new
    ∧ (progressOf new).Pairwise (· < ·)
    ∧ (∀ p ∈ progressOf new, s0.ds.last_progress < p ∧ p ≤ s.ds.last_progress)
    ∧ s0.ds.last_progress ≤ s.ds.last_progress

/-- The length of the stored file, zero when there is none. -/
def storedLength (st : Storage) : Nat := (st.getD []).length

/-- The hash algorithm of a session for the target. -/
def sessionHashType (target : Target) : HashType :=
  (target.hashes.head?.map Hash.type).getD HashType.kSha256

/-- While a transfer runs, the hasher of the session has been fed exactly the bytes
`bytes` that a commit would store: either the handle is open on them and no retry
is pending, or the handle was released by a pause that committed them and set
`retry_`. -/
def HashedIsStored {σ : Type} (E : Env σ) (target : Target) (s : LoopState σ) : Prop :=
  ∃ bytes : List Byte,
    s.ds.hash_type = sessionHashType target
    ∧ s.ds.hasher = (E.hasher (sessionHashType target)).update
        (E.hasher (sessionHashType target)).init bytes
    ∧ ((∃ h, s.ds.fhandle = some h ∧ h.base ++ h.written = bytes ∧ s.fetcher.retry_ = false)
       ∨ (s.ds.fhandle = none ∧ s.storage = some bytes ∧ s.fetcher.retry_ = true))

/-- At the top of a loop iteration the same holds, or the loop was entered with
`retry_` already set and a handle on the stored bytes to which nothing has been
written yet. -/
def HashedIsStoredTop {σ : Type} (E : Env σ) (target : Target) (s : LoopState σ) : Prop :=
  HashedIsStored E target s
  ∨ ∃ h, s.ds.hash_type = sessionHashType target
      ∧ s.ds.hasher = (E.hasher (sessionHashType target)).update
          (E.hasher (sessionHashType target)).init (s.storage.getD [])
      ∧ s.ds.fhandle = some h ∧ h.written = [] ∧ h.base = s.storage.getD []
      ∧ s.fetcher.retry_ = true

/-- A chunk that fails the size check is rejected and changes nothing. -/
theorem DownloadHandler_oversize {σ : Type} (E : Env σ) (contents : List Byte) (accept : Nat)
    (ds : DownloadMetaStruct σ) (f : Fetcher) (st : Storage)
    (h : ds.target.length < u64 (ds.downloaded_length + contents.length)) :
    DownloadHandler E contents accept ds f st
      = some { ret := u64 (contents.length + 1), ds := ds, fetcher := f, storage := st,
               actions := [] } := by
  simp [DownloadHandler, h]

/-- A chunk that passes the size check while no pause is requested. -/
theorem DownloadHandler_running {σ : Type} (E : Env σ) (contents : List Byte) (accept : Nat)
    (ds : DownloadMetaStruct σ) (f : Fetcher) (st : Storage) (h : StorageTargetWHandle)
    (hg : u64 (ds.downloaded_length + contents.length) ≤ ds.target.length)
    (hh : ds.fhandle = some h) (hz : ds.target.length ≠ 0) (hp : f.pause_ = false) :
    DownloadHandler E contents accept ds f st
      = some { ret := min accept contents.length
               ds := acceptedSession E contents accept ds (some (h.wfeed contents accept).1)
               fetcher := f, storage := st, actions := acceptedEvents contents ds } := by
  have hg' : ¬ ds.target.length < u64 (ds.downloaded_length + contents.length) := by omega
  simp [DownloadHandler, hg', hh, hz, hp, acceptedSession, acceptedEvents,
    StorageTargetWHandle.wfeed]

/-- A chunk that passes the size check while a pause is requested. -/
theorem DownloadHandler_paused {σ : Type} (E : Env σ) (contents : List Byte) (accept : Nat)
    (ds : DownloadMetaStruct σ) (f : Fetcher) (st : Storage) (h : StorageTargetWHandle)
    (hg : u64 (ds.downloaded_length + contents.length) ≤ ds.target.length)
    (hh : ds.fhandle = some h) (hz : ds.target.length ≠ 0) (hp : f.pause_ = true) :
    DownloadHandler E contents accept ds f st
      = some { ret := u64 (min accept contents.length + 1)
               ds := acceptedSession E contents accept ds none
               fetcher := { f with retry_ := true }
               storage := (h.wfeed contents accept).1.wcommit
               actions := acceptedEvents contents ds ++ [Action.wcommit] } := by
  have hg' : ¬ ds.target.length < u64 (ds.downloaded_length + contents.length) := by omega
  simp [DownloadHandler, hg', hh, hz, hp, acceptedSession, acceptedEvents,
    StorageTargetWHandle.wfeed]

/-- Every handler call with defined behaviour is one of three cases: rejected by the
size check, accepted while running, accepted while a pause is requested. -/
theorem DownloadHandler_cases {σ : Type} (E : Env σ) (contents : List Byte) (accept : Nat)
    (ds : DownloadMetaStruct σ) (f : Fetcher) (st : Storage) (r : HandlerResult σ)
    (hr : DownloadHandler E contents accept ds f st = some r) :
    (ds.target.length < u64 (ds.downloaded_length + contents.length)
      ∧ r = { ret := u64 (contents.length + 1), ds := ds, fetcher := f, storage := st,
              actions := [] })
    ∨ (∃ h, u64 (ds.downloaded_length + contents.length) ≤ ds.target.length
        ∧ ds.fhandle = some h ∧ ds.target.length ≠ 0 ∧ f.pause_ = false
        ∧ r = { ret := min accept contents.length
                ds := acceptedSession E contents accept ds (some (h.wfeed contents accept).1)
                fetcher := f, storage := st, actions := acceptedEvents contents ds })
    ∨ (∃ h, u64 (ds.downloaded_length + contents.length) ≤ ds.target.length
        ∧ ds.fhandle = some h ∧ ds.target.length ≠ 0 ∧ f.pause_ = true
        ∧ r = { ret := u64 (min accept contents.length + 1)
                ds := acceptedSession E contents accept ds none
                fetcher := { f with retry_ := true }
                storage := (h.wfeed contents accept).1.wcommit
                actions := acceptedEvents contents ds ++ [Action.wcommit] }) := by
  by_cases hg : ds.target.length < u64 (ds.downloaded_length + contents.length)
  · left
    rw [DownloadHandler_oversize E contents accept ds f st hg] at hr
    exact ⟨hg, (Option.some.inj hr).symm⟩
  · right
    have hg' : u64 (ds.downloaded_length + contents.length) ≤ ds.target.length := by omega
    cases hh : ds.fhandle with
    | none => simp [DownloadHandler, hg, hh] at hr
    | some h =>
      by_cases hz : ds.target.length = 0
      · unfold DownloadHandler at hr
        rw [if_neg hg] at hr
        simp [hh, hz] at hr
      · rcases Bool.eq_false_or_eq_true f.pause_ with hp | hp
        · right
          rw [DownloadHandler_paused E contents accept ds f st h hg' hh hz hp] at hr
          exact ⟨h, hg', rfl, hz, hp, (Option.some.inj hr).symm⟩
        · left
          rw [DownloadHandler_running E contents accept ds f st h hg' hh hz hp] at hr
          exact ⟨h, hg', rfl, hz, hp, (Option.some.inj hr).symm⟩


/-! ## The controller thread, transfers and the retry loop: invariants -/

/-- The fetcher after `setPause` is the old one, possibly with a new `pause_`. -/
theorem setPause_fetcher (f : Fetcher) (p : Bool) :
    (f.setPause p).2.1 = f ∨ (f.setPause p).2.1 = { f with pause_ := p } := by
  unfold Fetcher.setPause
  split_ifs <;> simp

/-- The events of `setPause` are pause or resume events. -/
theorem setPause_events (f : Fetcher) (p : Bool) :
    ∀ a ∈ (f.setPause p).2.2, a.isPauseEvent = true := by
  unfold Fetcher.setPause
  split_ifs <;> simp [Action.isPauseEvent]

/-- Requests served by the controller thread change no member besides `pause_`. -/
theorem applyCtl_fetcher (reqs : List Bool) : ∀ f : Fetcher,
    (applyCtl f reqs).1.retry_ = f.retry_
    ∧ (applyCtl f reqs).1.downloading_ = f.downloading_
    ∧ (applyCtl f reqs).1.events_channel = f.events_channel := by
  induction reqs with
  | nil => intro f; simp [applyCtl]
  | cons p ps ih =>
    intro f
    simp only [applyCtl]
    obtain ⟨h1, h2, h3⟩ := ih (f.setPause p).2.1
    rw [h1, h2, h3]
    rcases setPause_fetcher f p with e | e <;> rw [e] <;> simp

/-- Requests served by the controller thread only send pause or resume events. -/
theorem applyCtl_events (reqs : List Bool) : ∀ f : Fetcher,
    ∀ a ∈ (applyCtl f reqs).2, a.isPauseEvent = true := by
  induction reqs with
  | nil => intro f; simp [applyCtl]
  | cons p ps ih =>
    intro f a ha
    simp only [applyCtl, List.mem_append] at ha
    rcases ha with ha | ha
    · exact setPause_events f p a ha
    · exact ih _ a ha

/-- The progress values of a concatenated trace. -/
theorem progressOf_append (a b : List Action) :
    progressOf (a ++ b) = progressOf a ++ progressOf b := by
  simp [progressOf, List.filterMap_append]

/-- Pause and resume events carry no progress value. -/
theorem progressOf_pauseEvents (tr : List Action) (h : ∀ a ∈ tr, a.isPauseEvent = true) :
    progressOf tr = [] := by
  induction tr with
  | nil => rfl
  | cons a l ih =>
    have ha := h a (List.mem_cons_self _ _)
    have hl := ih (fun b hb => h b (List.mem_cons_of_mem _ hb))
    cases a with
    | sendEvent e =>
      cases e <;> simp_all [progressOf, Action.progress?, Action.isPauseEvent]
    | _ => simp_all [progressOf, Action.progress?, Action.isPauseEvent]

/-- The controller thread sends no progress event. -/
theorem progressOf_applyCtl (f : Fetcher) (reqs : List Bool) :
    progressOf (applyCtl f reqs).2 = [] :=
  progressOf_pauseEvents _ (applyCtl_events reqs f)

/-- An invariant of the states of a transfer is kept by the whole transfer. -/
theorem transfer_invariant {σ : Type} (E : Env σ) (P : LoopState σ → Prop)
    (hctl : ∀ (s : LoopState σ) (reqs : List Bool), P s →
      P { s with fetcher := (applyCtl s.fetcher reqs).1,
                 trace := s.trace ++ (applyCtl s.fetcher reqs).2 })
    (hstep : ∀ (s : LoopState σ) (c : Chunk) (r : HandlerResult σ), P s →
      DownloadHandler E c.contents c.accept s.ds s.fetcher s.storage = some r →
      P { ds := r.ds, fetcher := r.fetcher, storage := r.storage, trace := s.trace ++ r.actions })
    (resp : HttpResponse) :
    ∀ (cs : List Chunk) (s : LoopState σ), P s → P (transfer E resp cs s).2 := by
  intro cs
  induction cs with
  | nil => intro s hs; simpa [transfer] using hs
  | cons c cs ih =>
    intro s hs
    have h1 := hctl s c.ctl hs
    simp only [transfer]
    cases hr : DownloadHandler E c.contents c.accept s.ds (applyCtl s.fetcher c.ctl).1 s.storage with
    | none => simpa using h1
    | some r =>
      have h2 := hstep _ c r h1 hr
      simp only
      split_ifs
      · exact ih _ h2
      · exact h2

/-- The retry loop keeps a pair of invariants: `Ptop` holds at the top of every
iteration, `Pin` while a transfer runs. -/
theorem retryLoop_invariant {σ : Type} (E : Env σ) (Ptop Pin : LoopState σ → Prop)
    (hwait : ∀ (s : LoopState σ) (reqs : List Bool), Ptop s →
      Ptop { s with fetcher := (applyCtl s.fetcher reqs).1,
                    trace := s.trace ++ (applyCtl s.fetcher reqs).2 })
    (hreopen : ∀ s : LoopState σ, Ptop s → s.fetcher.retry_ = true →
      Pin { s with fetcher := { s.fetcher with retry_ := false }
                   ds := { s.ds with fhandle := some (openTargetFile s.storage) }
                   trace := s.trace ++ [Action.openTargetFile] })
    (henter : ∀ s : LoopState σ, Ptop s → s.fetcher.retry_ = false → Pin s)
    (hdl : ∀ (s : LoopState σ) (url : String) (off : Nat), Pin s →
      Pin { s with trace := s.trace ++ [Action.httpDownload url off] })
    (hctl : ∀ (s : LoopState σ) (reqs : List Bool), Pin s →
      Pin { s with fetcher := (applyCtl s.fetcher reqs).1,
                   trace := s.trace ++ (applyCtl s.fetcher reqs).2 })
    (hstep : ∀ (s : LoopState σ) (c : Chunk) (r : HandlerResult σ), Pin s →
      DownloadHandler E c.contents c.accept s.ds s.fetcher s.storage = some r →
      Pin { ds := r.ds, fetcher := r.fetcher, storage := r.storage, trace := s.trace ++ r.actions })
    (hback : ∀ s : LoopState σ, Pin s → s.fetcher.retry_ = true → Ptop s) :
    ∀ (as : List Attempt) (s : LoopState σ), Ptop s →
      (Ptop (retryLoop E as s).2 ∨ Pin (retryLoop E as s).2)
      ∧ (∀ resp, (retryLoop E as s).1 = LoopExit.done resp →
          Pin (retryLoop E as s).2 ∧ (retryLoop E as s).2.fetcher.retry_ = false) := by
  intro as
  induction as with
  | nil => intro s hs; simp [retryLoop, hs]
  | cons a rest ih =>
    intro s hs
    have h0 := hwait s a.wait hs
    simp only [retryLoop]
    split_ifs with hp hr
    · simp [h0]
    · have h1 := hdl _ (targetUrl E s.ds.target) s.ds.downloaded_length (hreopen _ h0 hr)
      have h2 := transfer_invariant E Pin hctl hstep a.response a.chunks _ h1
      generalize hT : transfer E a.response a.chunks _ = T at h2 ⊢
      rcases T with ⟨_ | resp, s3⟩
      · simp [h2]
      · simp only
        split_ifs with h3
        · exact ih _ (hback _ h2 h3)
        · simp at h3
          simp [h2, h3]
    · have hr' : (applyCtl s.fetcher a.wait).1.retry_ = false := by simpa using hr
      have h1 := hdl _ (targetUrl E s.ds.target) s.ds.downloaded_length (henter _ h0 hr')
      have h2 := transfer_invariant E Pin hctl hstep a.response a.chunks _ h1
      generalize hT : transfer E a.response a.chunks _ = T at h2 ⊢
      rcases T with ⟨_ | resp, s3⟩
      · simp [h2]
      · simp only
        split_ifs with h3
        · exact ih _ (hback _ h2 h3)
        · simp at h3
          simp [h2, h3]

/-! ## Fetcher::setPause follows its transition table -/

/-- C2: `setPause` follows the transition table. If the request equals the current
flag the result is `kAlreadyPaused` / `kNotPaused` and the fetcher is unchanged; else
if a pause is requested while `downloading_` is zero the result is `kNotDownloading`
and the fetcher is unchanged; otherwise `pause_` becomes the request, the other
members are unchanged and the result is `kPaused` / `kResumed`. The flag goes from
false to true only while `downloading_` is positive, and every call sends exactly one
event carrying the returned result (`DownloadPaused` for a pause request,
`DownloadResumed` for a resume request). -/
theorem setPause_transition_table (f : Fetcher) (requestPause : Bool) :
    (requestPause = f.pause_ →
        (f.setPause requestPause).1
            = (if requestPause then PauseResult.kAlreadyPaused else PauseResult.kNotPaused)
          ∧ (f.setPause requestPause).2.1 = f)
    ∧ (requestPause ≠ f.pause_ → requestPause = true → f.downloading_ = 0 →
        (f.setPause requestPause).1 = PauseResult.kNotDownloading
          ∧ (f.setPause requestPause).2.1 = f)
    ∧ (requestPause ≠ f.pause_ → ¬ (requestPause = true ∧ f.downloading_ = 0) →
        (f.setPause requestPause).1
            = (if requestPause then PauseResult.kPaused else PauseResult.kResumed)
          ∧ (f.setPause requestPause).2.1.pause_ = requestPause
          ∧ (f.setPause requestPause).2.1.downloading_ = f.downloading_
          ∧ (f.setPause requestPause).2.1.retry_ = f.retry_
          ∧ (f.setPause requestPause).2.1.events_channel = f.events_channel)
    ∧ (f.pause_ = false → (f.setPause requestPause).2.1.pause_ = true → 0 < f.downloading_)
    ∧ (f.setPause requestPause).2.2
        = [Action.sendEvent
            (if requestPause then Event.DownloadPaused (f.setPause requestPause).1
             else Event.DownloadResumed (f.setPause requestPause).1)] := by
  rcases f with ⟨p, d, r, e⟩
  cases requestPause <;> cases p <;> rcases Nat.eq_zero_or_pos d with hd | hd <;>
    simp [Fetcher.setPause, hd, Nat.pos_iff_ne_zero.mp]

/-- C2 at a fetcher with one download in flight: the pause request is granted. -/
theorem setPause_transition_table_witness :
    (busyFetcher.setPause true).1 = PauseResult.kPaused
    ∧ (busyFetcher.setPause true).2.1.pause_ = true
    ∧ 0 < busyFetcher.downloading_ :=
  have h := setPause_transition_table busyFetcher true
  ⟨(h.2.2.1 (by decide) (by decide)).1, (h.2.2.1 (by decide) (by decide)).2.1,
    h.2.2.2.1 rfl (h.2.2.1 (by decide) (by decide)).2.1⟩

/-! ## Targets without a declared hash -/

/-- C9: for a discrete-file target with a non-empty hash set whose stored file has
the declared length, `fetchVerifyTarget` returns true, performs no network action
and opens no write handle, leaves storage, `retry_` and `downloading_` as they were,
and a second call in the resulting state gives the same outcome. -/
theorem complete_target_idempotent {σ : Type} (E : Env σ) (target : Target)
    (script script2 : Script) (f : Fetcher) (stored : List Byte)
    (hfile : target.IsOstree = false) (hhash : target.hashes ≠ [])
    (hlen : stored.length = target.length) :
    (fetchVerifyTarget E target script f (some stored)).status = Status.returned true
    ∧ (∀ a ∈ (fetchVerifyTarget E target script f (some stored)).trace,
        a.isNetwork = false ∧ a.isHandleOpen = false)
    ∧ (fetchVerifyTarget E target script f (some stored)).storage = some stored
    ∧ (fetchVerifyTarget E target script f (some stored)).fetcher.retry_ = f.retry_
    ∧ (fetchVerifyTarget E target script f (some stored)).fetcher.downloading_ = f.downloading_
    ∧ fetchVerifyTarget E target script2
        (fetchVerifyTarget E target script f (some stored)).fetcher
        (fetchVerifyTarget E target script f (some stored)).storage
        = fetchVerifyTarget E target script f (some stored) := by
  have h1 : ∀ (sc : Script) (g : Fetcher), fetchVerifyTarget E target sc g (some stored)
      = { status := Status.returned true, fetcher := g, storage := some stored,
          trace := [Action.checkTargetFile] } := by
    intro sc g
    cases hh : target.hashes with
    | nil => exact absurd hh hhash
    | cons a l =>
      simp [fetchVerifyTarget, hfile, hh, checkTargetFile, hlen, endDownload, beginDownload]
  simp [h1, Action.isNetwork, Action.isHandleOpen]

/-- C9 at a stored file of the declared four bytes, with a transport that would
deliver data if asked. -/
theorem complete_target_idempotent_witness :
    (fetchVerifyTarget demoEnv demoTarget (oneAttempt [plainChunk [1, 1, 1, 1]]) demoFetcher
        (some [1, 2, 3, 4])).status = Status.returned true
    ∧ (fetchVerifyTarget demoEnv demoTarget (oneAttempt [plainChunk [1, 1, 1, 1]]) demoFetcher
        (some [1, 2, 3, 4])).storage = some [1, 2, 3, 4] :=
  ⟨(complete_target_idempotent demoEnv demoTarget (oneAttempt [plainChunk [1, 1, 1, 1]])
      emptyScript demoFetcher [1, 2, 3, 4] rfl (by decide) rfl).1,
   (complete_target_idempotent demoEnv demoTarget (oneAttempt [plainChunk [1, 1, 1, 1]])
      emptyScript demoFetcher [1, 2, 3, 4] rfl (by decide) rfl).2.2.1⟩

/-! ## A pause request that meets a short write -/

/-- C6: the code departs from the claim at a one-byte chunk of which the write
handle takes nothing while a pause is requested: the handler commits, releases the handle and sets `retry_`, but
returns `0 + 1`, which is the chunk size, so the transport goes on; the next chunk
then meets the released handle. -/
theorem paused_short_write_not_signalled :
    (DownloadHandler demoEnv [7] 0 (setupSession demoEnv demoTarget true none).1
        pausedFetcher none).map
        (fun r => (r.ret, r.fetcher.retry_, r.ds.fhandle, r.storage))
      = some (([7] : List Byte).length, true, none, some [])
    ∧ (fetchVerifyTarget demoEnv demoTarget
        (oneAttempt [{ ctl := [true], contents := [7], accept := 0 }, plainChunk [1]])
        demoFetcher none).status = Status.undefined := by
  constructor
  · rfl
  · decide

/-! ## The progress percentage on a target of length zero -/

/-- C10: the code departs from the claim at a target of declared length zero with
no stored file when the transport delivers a chunk of zero bytes: the chunk passes the size check and the
handler divides by the declared length. The product `downloaded_length * 100`
also wraps for lengths from `2^64 / 100` on: a complete download of `2^63` bytes
reports 0 percent. -/
theorem progress_division_by_zero :
    (setupSession demoEnv emptyTarget true none).1.downloaded_length + ([] : List Byte).length
        ≤ (setupSession demoEnv emptyTarget true none).1.target.length
    ∧ (DownloadHandler demoEnv [] 0 (setupSession demoEnv emptyTarget true none).1
        demoFetcher none).isNone = true
    ∧ (fetchVerifyTarget demoEnv emptyTarget (oneAttempt [plainChunk []])
        demoFetcher none).status = Status.undefined
    ∧ 18446744073709551616 ≤ 9223372036854775808 * 100
    ∧ progressValue 9223372036854775808 9223372036854775808 = 0 := by
  decide

/-! ## Progress reports -/

/-- The progress value reported for a chunk that passed the size check, if any. -/
theorem progressOf_acceptedEvents {σ : Type} (contents : List Byte) (ds : DownloadMetaStruct σ) :
    progressOf (acceptedEvents contents ds)
      = if ds.events_channel = true
            ∧ ds.last_progress
                < progressValue (u64 (ds.downloaded_length + contents.length)) ds.target.length
        then [progressValue (u64 (ds.downloaded_length + contents.length)) ds.target.length]
        else [] := by
  unfold acceptedEvents
  by_cases h : ds.events_channel = true
      ∧ ds.last_progress
          < progressValue (u64 (ds.downloaded_length + contents.length)) ds.target.length
  · simp [h, progressOf, Action.progress?]
  · rw [if_neg h]
    have : ¬ ((ds.events_channel && decide (progressValue (u64 (ds.downloaded_length + contents.length)) ds.target.length > ds.last_progress)) = true) := by
      simpa using h
    simp [this, progressOf]

/-- The last reported progress after a chunk that passed the size check. -/
theorem acceptedSession_last_progress {σ : Type} (E : Env σ) (contents : List Byte)
    (accept : Nat) (ds : DownloadMetaStruct σ) (fh : Option StorageTargetWHandle) :
    (acceptedSession E contents accept ds fh).last_progress
      = if ds.events_channel = true
            ∧ ds.last_progress
                < progressValue (u64 (ds.downloaded_length + contents.length)) ds.target.length
        then progressValue (u64 (ds.downloaded_length + contents.length)) ds.target.length
        else ds.last_progress := by
  unfold acceptedSession
  by_cases h : ds.events_channel = true
      ∧ ds.last_progress
          < progressValue (u64 (ds.downloaded_length + contents.length)) ds.target.length
  · simp [h]
  · rw [if_neg h]
    have : ¬ ((ds.events_channel && decide (progressValue (u64 (ds.downloaded_length + contents.length)) ds.target.length > ds.last_progress)) = true) := by
      simpa using h
    simp [this]

/-- One handler call: what it adds to the progress record. -/
theorem DownloadHandler_progress {σ : Type} (E : Env σ) (contents : List Byte) (accept : Nat)
    (ds : DownloadMetaStruct σ) (f : Fetcher) (st : Storage) (r : HandlerResult σ)
    (hr : DownloadHandler E contents accept ds f st = some r) :
    (progressOf r.actions).Pairwise (· < ·)
    ∧ (∀ p ∈ progressOf r.actions, ds.last_progress < p ∧ p ≤ r.ds.last_progress)
    ∧ ds.last_progress ≤ r.ds.last_progress := by
  rcases DownloadHandler_cases E contents accept ds f st r hr with
    ⟨_, rfl⟩ | ⟨h, _, _, _, _, rfl⟩ | ⟨h, _, _, _, _, rfl⟩
  · simp [progressOf]
  · simp only [progressOf_acceptedEvents, acceptedSession_last_progress]
    split_ifs with hc
    · simp [hc.2, le_of_lt hc.2]
    · simp
  · simp only [progressOf_append, progressOf_acceptedEvents, acceptedSession_last_progress]
    split_ifs with hc
    · simp [progressOf, Action.progress?, hc.2, le_of_lt hc.2]
    · simp [progressOf, Action.progress?]

/-- Nothing has been reported since the state itself. -/
theorem ProgressSince_refl {σ : Type} (s : LoopState σ) : ProgressSince s s :=
  ⟨[], by simp, by simp [progressOf], by simp [progressOf], le_refl _⟩

/-- Appending actions without a progress value and keeping the session. -/
theorem ProgressSince_quiet {σ : Type} (s0 s s1 : LoopState σ) (extra : List Action)
    (h : ProgressSince s0 s) (htr : s1.trace = s.trace ++ extra)
    (hq : progressOf extra = []) (hl : s1.ds.last_progress = s.ds.last_progress) :
    ProgressSince s0 s1 := by
  obtain ⟨new, h1, h2, h3, h4⟩ := h
  refine ⟨new ++ extra, ?_, ?_, ?_, ?_⟩
  · rw [htr, h1, List.append_assoc]
  · rw [progressOf_append, hq, List.append_nil]; exact h2
  · rw [progressOf_append, hq, List.append_nil, hl]; exact h3
  · rw [hl]; exact h4

/-- A handler call keeps the progress record increasing. -/
theorem ProgressSince_step {σ : Type} (E : Env σ) (s0 s : LoopState σ) (c : Chunk)
    (r : HandlerResult σ) (h : ProgressSince s0 s)
    (hr : DownloadHandler E c.contents c.accept s.ds s.fetcher s.storage = some r) :
    ProgressSince s0
      { ds := r.ds, fetcher := r.fetcher, storage := r.storage, trace := s.trace ++ r.actions } := by
  obtain ⟨new, h1, h2, h3, h4⟩ := h
  obtain ⟨k1, k2, k3⟩ := DownloadHandler_progress E _ _ _ _ _ r hr
  refine ⟨new ++ r.actions, ?_, ?_, ?_, ?_⟩
  · simp [h1, List.append_assoc]
  · rw [progressOf_append, List.pairwise_append]
    refine ⟨h2, k1, ?_⟩
    intro a ha b hb
    exact lt_of_le_of_lt (h3 a ha).2 (k2 b hb).1
  · intro p hp
    rw [progressOf_append, List.mem_append] at hp
    rcases hp with hp | hp
    · exact ⟨(h3 p hp).1, le_trans (h3 p hp).2 k3⟩
    · exact ⟨lt_of_le_of_lt h4 (k2 p hp).1, (k2 p hp).2⟩
  · exact le_trans h4 k3

/-- A transfer keeps the progress record increasing. -/
theorem transfer_progress {σ : Type} (E : Env σ) (resp : HttpResponse) (cs : List Chunk)
    (s0 s : LoopState σ) (h : ProgressSince s0 s) :
    ProgressSince s0 (transfer E resp cs s).2 := by
  refine transfer_invariant E (ProgressSince s0) ?_ ?_ resp cs s h
  · intro s reqs hs
    exact ProgressSince_quiet s0 s _ _ hs rfl (progressOf_applyCtl _ _) rfl
  · intro s c r hs hr
    exact ProgressSince_step E s0 s c r hs hr

/-- The retry loop keeps the progress record increasing. -/
theorem retryLoop_progress {σ : Type} (E : Env σ) (as : List Attempt)
    (s0 s : LoopState σ) (h : ProgressSince s0 s) :
    ProgressSince s0 (retryLoop E as s).2 := by
  have := (retryLoop_invariant E (ProgressSince s0) (ProgressSince s0) ?_ ?_ ?_ ?_ ?_ ?_ ?_
    as s h).1
  · simpa using this
  · intro s reqs hs
    exact ProgressSince_quiet s0 s _ _ hs rfl (progressOf_applyCtl _ _) rfl
  · intro s hs _
    exact ProgressSince_quiet s0 s _ [Action.openTargetFile] hs rfl (by simp [progressOf, Action.progress?]) rfl
  · intro s hs _; exact hs
  · intro s url off hs
    exact ProgressSince_quiet s0 s _ _ hs rfl (by simp [progressOf, Action.progress?]) rfl
  · intro s reqs hs
    exact ProgressSince_quiet s0 s _ _ hs rfl (progressOf_applyCtl _ _) rfl
  · intro s c r hs hr
    exact ProgressSince_step E s0 s c r hs hr
  · intro s hs _; exact hs

/-- For a discrete-file target with hashes and no complete file in storage,
`fetchVerifyTarget` is the retry loop from the start state followed by its end. -/
theorem fetchVerifyTarget_download {σ : Type} (E : Env σ) (target : Target) (script : Script)
    (f : Fetcher) (st : Storage)
    (hfile : target.IsOstree = false) (hhash : target.hashes ≠ [])
    (hlen : checkTargetFile st ≠ some target.length) :
    fetchVerifyTarget E target script f st
      = loopOutcome E target (retryLoop E script.attempts (startState E target f st)) := by
  have hne : target.hashes.isEmpty = false := by
    cases h : target.hashes with
    | nil => exact absurd h hhash
    | cons a l => rfl
  simp [fetchVerifyTarget, hfile, hne, hlen]

/-- No progress has been reported when the retry loop is entered. -/
theorem progressOf_startState {σ : Type} (E : Env σ) (target : Target) (f : Fetcher)
    (st : Storage) : progressOf (startState E target f st : LoopState σ).trace = [] := by
  cases st <;> simp [startState, setupSession, progressOf, Action.progress?]

/-- The end of `fetchVerifyTarget` reports no progress. -/
theorem loopOutcome_progress {σ : Type} (E : Env σ) (target : Target)
    (R : LoopExit × LoopState σ) :
    progressOf (loopOutcome E target R).trace = progressOf R.2.trace := by
  rcases R with ⟨e, s1⟩
  cases e with
  | done resp =>
    simp only [loopOutcome, finishDownload]
    cases s1.ds.fhandle <;> split_ifs <;>
      simp [progressOf_append, progressOf, Action.progress?]
  | pending => rfl
  | undefined => rfl

/-- The progress values reported during one call are strictly increasing. -/
theorem fetchVerifyTarget_progress {σ : Type} (E : Env σ) (target : Target) (script : Script)
    (f : Fetcher) (st : Storage) :
    (progressOf (fetchVerifyTarget E target script f st).trace).Pairwise (· < ·) := by
  by_cases hfile : target.IsOstree = false
  · by_cases hhash : target.hashes = []
    · simp [fetchVerifyTarget, hfile, hhash, progressOf]
    · by_cases hlen : checkTargetFile st = some target.length
      · have hne : target.hashes.isEmpty = false := by
          cases h : target.hashes with
          | nil => exact absurd h hhash
          | cons a l => rfl
        simp [fetchVerifyTarget, hfile, hne, hlen, progressOf, Action.progress?]
      · rw [fetchVerifyTarget_download E target script f st hfile hhash hlen,
          loopOutcome_progress]
        obtain ⟨new, h1, h2, _, _⟩ := retryLoop_progress E script.attempts _ _
          (ProgressSince_refl (startState E target f st))
        rw [h1, progressOf_append, progressOf_startState]
        simpa using h2
  · have ho : target.IsOstree = true := by simpa using hfile
    cases hb : E.BUILD_OSTREE <;>
      simp [fetchVerifyTarget, ho, hb, progressOf, Action.progress?]

/-- Without wrap-around the progress value is the plain quotient, at most 100. -/
theorem progressValue_exact (dl expected : Nat) (hle : dl ≤ expected)
    (hfit : dl * 100 < 18446744073709551616) :
    progressValue dl expected = dl * 100 / expected ∧ progressValue dl expected ≤ 100 := by
  have h1 : dl * 100 / expected ≤ 100 := by
    apply Nat.div_le_of_le_mul
    nlinarith
  unfold progressValue u64 u32
  rw [Nat.mod_eq_of_lt hfit, Nat.mod_eq_of_lt (by omega)]
  exact ⟨rfl, h1⟩

/-- C8, as stated, fails at a rejected chunk of a resumed session: two of four
bytes are stored, nothing has been reported yet, an event channel is present and
the percentage after the call is 50, above the last reported 0; the chunk of three
bytes fails the size check and no event is sent. -/
theorem rejected_chunk_reports_no_progress :
    (DownloadHandler demoEnv [5, 5, 5] 3 (setupSession demoEnv demoTarget true (some [1, 1])).1
        busyFetcher (some [1, 1])).map
        (fun r => (r.actions, r.ds.downloaded_length, r.ds.last_progress))
      = some ([], 2, 0)
    ∧ (setupSession demoEnv demoTarget true (some [1, 1])).1.events_channel = true
    ∧ (setupSession demoEnv demoTarget true (some [1, 1])).1.last_progress
        < 2 * 100 / (setupSession demoEnv demoTarget true (some [1, 1])).1.target.length := by
  refine ⟨rfl, rfl, ?_⟩
  decide

/-- C8 (amended): the percentages carried by the `DownloadProgressReport` events of
one call of `fetchVerifyTarget`, and of any sequence of handler calls on a session,
are strictly increasing, the latter all above the last reported percentage. A
handler call whose chunk passes the size check sends an event exactly when an event
channel is present and the percentage the handler computes from the new
`downloaded_length` (`progressValue`) is greater than the last reported one, which
is then set to that percentage and otherwise kept; a call whose chunk fails the
size check sends no event and changes nothing. -/
theorem progress_reports_strictly_increase :
    (∀ {σ : Type} (E : Env σ) (target : Target) (script : Script) (f : Fetcher) (st : Storage),
        (progressOf (fetchVerifyTarget E target script f st).trace).Pairwise (· < ·))
    ∧ (∀ {σ : Type} (E : Env σ) (resp : HttpResponse) (cs : List Chunk) (s : LoopState σ),
        ∃ new, (transfer E resp cs s).2.trace = s.trace ++ new
          ∧ (progressOf new).Pairwise (· < ·)
          ∧ ∀ p ∈ progressOf new, s.ds.last_progress < p)
    ∧ (∀ {σ : Type} (E : Env σ) (contents : List Byte) (accept : Nat)
        (ds : DownloadMetaStruct σ) (f : Fetcher) (st : Storage) (h : StorageTargetWHandle),
        u64 (ds.downloaded_length + contents.length) ≤ ds.target.length →
        ds.fhandle = some h → ds.target.length ≠ 0 →
        ∃ r, DownloadHandler E contents accept ds f st = some r
          ∧ progressOf r.actions
              = (if ds.events_channel = true
                    ∧ ds.last_progress < progressValue r.ds.downloaded_length ds.target.length
                 then [progressValue r.ds.downloaded_length ds.target.length] else [])
          ∧ r.ds.last_progress
              = (if ds.events_channel = true
                    ∧ ds.last_progress < progressValue r.ds.downloaded_length ds.target.length
                 then progressValue r.ds.downloaded_length ds.target.length
                 else ds.last_progress))
    ∧ (∀ {σ : Type} (E : Env σ) (contents : List Byte) (accept : Nat)
        (ds : DownloadMetaStruct σ) (f : Fetcher) (st : Storage),
        ds.target.length < u64 (ds.downloaded_length + contents.length) →
        ∃ r, DownloadHandler E contents accept ds f st = some r
          ∧ r.actions = [] ∧ r.ds = ds) := by
  refine ⟨?_, ?_, ?_, ?_⟩
  · intro σ E target script f st
    exact fetchVerifyTarget_progress E target script f st
  · intro σ E resp cs s
    obtain ⟨new, h1, h2, h3, _⟩ := transfer_progress E resp cs s s (ProgressSince_refl s)
    exact ⟨new, h1, h2, fun p hp => (h3 p hp).1⟩
  · intro σ E contents accept ds f st h hg hh hz
    rcases Bool.eq_false_or_eq_true f.pause_ with hp | hp
    · refine ⟨_, DownloadHandler_paused E contents accept ds f st h hg hh hz hp, ?_, ?_⟩
      · simp only [progressOf_append, progressOf_acceptedEvents]
        simp [acceptedSession, progressOf, Action.progress?]
      · simp only [acceptedSession_last_progress]
        simp [acceptedSession]
    · refine ⟨_, DownloadHandler_running E contents accept ds f st h hg hh hz hp, ?_, ?_⟩
      · simp only [progressOf_acceptedEvents]
        simp [acceptedSession]
      · simp only [acceptedSession_last_progress]
        simp [acceptedSession]
  · intro σ E contents accept ds f st hg
    exact ⟨_, DownloadHandler_oversize E contents accept ds f st hg, rfl, rfl⟩

/-- C8 (amended) at the first chunk of a fresh session of the four-byte target: two
bytes arrive, 50 percent is reported and remembered. -/
theorem progress_reports_strictly_increase_witness :
    (DownloadHandler demoEnv [1, 1] 2 (setupSession demoEnv demoTarget true none).1
        busyFetcher none).map (fun r => (progressOf r.actions, r.ds.last_progress))
      = some ([50], 50) := by
  obtain ⟨r, h1, h2, h3⟩ := progress_reports_strictly_increase.2.2.1 demoEnv [1, 1] 2
    (setupSession demoEnv demoTarget true none).1 busyFetcher none allocateTargetFile
    (by decide) rfl (by decide)
  have hd : r.ds.downloaded_length = 2 := by
    have := DownloadHandler_running demoEnv [1, 1] 2
      (setupSession demoEnv demoTarget true none).1 busyFetcher none allocateTargetFile
      (by decide) rfl (by decide) rfl
    rw [this] at h1
    rw [← Option.some.inj h1]
    rfl
  rw [hd] at h2 h3
  rw [h1, Option.map_some', h2, h3]
  rfl

/-! ## Transfers that nothing disturbs -/

/-- The start state of the retry loop, member by member. -/
theorem startState_fields {σ : Type} (E : Env σ) (target : Target) (f : Fetcher) (st : Storage) :
    (startState E target f st : LoopState σ).fetcher = beginDownload f
    ∧ (startState E target f st : LoopState σ).storage = st
    ∧ (startState E target f st : LoopState σ).ds.target = target
    ∧ (startState E target f st : LoopState σ).ds.downloaded_length = storedLength st
    ∧ (startState E target f st : LoopState σ).ds.fhandle = some (openTargetFile st)
    ∧ (startState E target f st : LoopState σ).ds.hasher
        = (match st with
           | none => (E.hasher (startState E target f st : LoopState σ).ds.hash_type).init
           | some stored =>
             (E.hasher (startState E target f st : LoopState σ).ds.hash_type).update
               (E.hasher (startState E target f st : LoopState σ).ds.hash_type).init stored)
    ∧ Action.wcommit ∉ (startState E target f st : LoopState σ).trace := by
  cases st <;>
    simp [startState, setupSession, DownloadMetaStruct.new, storedLength, openTargetFile,
      allocateTargetFile]

/-- The session that `fetchVerifyTarget` sets up, member by member. -/
theorem setupSession_fields {σ : Type} (E : Env σ) (target : Target) (ec : Bool) (st : Storage) :
    (setupSession E target ec st).1.target = target
    ∧ (setupSession E target ec st).1.hash_type = sessionHashType target
    ∧ (setupSession E target ec st).1.downloaded_length = storedLength st
    ∧ (setupSession E target ec st).1.fhandle = some (openTargetFile st)
    ∧ (setupSession E target ec st).1.last_progress = 0
    ∧ (setupSession E target ec st).1.events_channel = ec
    ∧ (setupSession E target ec st).1.hasher
        = (match st with
           | none => (E.hasher (sessionHashType target)).init
           | some stored =>
             (E.hasher (sessionHashType target)).update (E.hasher (sessionHashType target)).init
               stored) := by
  cases st <;>
    simp [setupSession, DownloadMetaStruct.new, storedLength, openTargetFile,
      allocateTargetFile, sessionHashType]

/-- The toy hasher satisfies the streaming contract. -/
theorem demoHasher_lawful : demoHasher.Lawful := by
  constructor
  · intro s; simp [demoHasher]
  · intro s a b; simp [demoHasher, List.sum_append, Nat.add_assoc]

/-- A handler call keeps the hashed bytes equal to the bytes a commit would store. -/
theorem HashedIsStored_step {σ : Type} (E : Env σ) (target : Target)
    (hlaw : ∀ ty, (E.hasher ty).Lawful) (s : LoopState σ) (c : Chunk) (r : HandlerResult σ)
    (hs : HashedIsStored E target s)
    (hr : DownloadHandler E c.contents c.accept s.ds s.fetcher s.storage = some r) :
    HashedIsStored E target
      { ds := r.ds, fetcher := r.fetcher, storage := r.storage, trace := s.trace ++ r.actions } := by
  obtain ⟨bytes, hty, hh, hcase⟩ := hs
  rcases DownloadHandler_cases E _ _ _ _ _ r hr with
    ⟨_, rfl⟩ | ⟨h, _, hfh, _, hp, rfl⟩ | ⟨h, _, hfh, _, hp, rfl⟩
  · exact ⟨bytes, hty, hh, hcase⟩
  · rcases hcase with ⟨h', hfh', hb, hrt⟩ | ⟨hfh', _, _⟩
    · rw [hfh] at hfh'
      obtain rfl := Option.some.inj hfh'
      refine ⟨bytes ++ c.contents.take (min c.accept c.contents.length), ?_, ?_, Or.inl ?_⟩
      · simpa [acceptedSession] using hty
      · simp only [acceptedSession, hty, hh]
        rw [(hlaw _).2]
      · refine ⟨_, rfl, ?_, hrt⟩
        simp [StorageTargetWHandle.wfeed, ← hb, List.append_assoc]
    · rw [hfh] at hfh'; cases hfh'
  · rcases hcase with ⟨h', hfh', hb, _⟩ | ⟨hfh', _, _⟩
    · rw [hfh] at hfh'
      obtain rfl := Option.some.inj hfh'
      refine ⟨bytes ++ c.contents.take (min c.accept c.contents.length), ?_, ?_, Or.inr ?_⟩
      · simpa [acceptedSession] using hty
      · simp only [acceptedSession, hty, hh]
        rw [(hlaw _).2]
      · refine ⟨by simp [acceptedSession], ?_, rfl⟩
        simp [StorageTargetWHandle.wfeed, StorageTargetWHandle.wcommit, ← hb, List.append_assoc]
    · rw [hfh] at hfh'; cases hfh'

/-- The start state of the retry loop has hashed what a commit would store. -/
theorem HashedIsStoredTop_start {σ : Type} (E : Env σ) (target : Target)
    (hlaw : ∀ ty, (E.hasher ty).Lawful) (f : Fetcher) (st : Storage) :
    HashedIsStoredTop E target (startState E target f st) := by
  obtain ⟨q1, q2, _, _, q5, q6, _⟩ := startState_fields (σ := σ) E target f st
  have hty : (startState E target f st : LoopState σ).ds.hash_type = sessionHashType target :=
    (setupSession_fields E target (beginDownload f).events_channel st).2.1
  have hh : (startState E target f st : LoopState σ).ds.hasher
      = (E.hasher (sessionHashType target)).update
          (E.hasher (sessionHashType target)).init (st.getD []) := by
    rw [q6, hty]
    cases st with
    | none => simp [(hlaw _).1]
    | some stored => simp
  rcases Bool.eq_false_or_eq_true f.retry_ with hr | hr
  · right
    exact ⟨openTargetFile st, hty, by rw [hh, q2], q5, rfl, by rw [q2]; rfl,
      by rw [q1]; simpa [beginDownload] using hr⟩
  · left
    exact ⟨st.getD [], hty, hh, Or.inl ⟨openTargetFile st, q5, by simp [openTargetFile],
      by rw [q1]; simpa [beginDownload] using hr⟩⟩

/-- When the retry loop ends with a response, the hasher has been fed exactly the
bytes that the open handle would commit. -/
theorem retryLoop_hashed {σ : Type} (E : Env σ) (target : Target)
    (hlaw : ∀ ty, (E.hasher ty).Lawful) (as : List Attempt) (s : LoopState σ)
    (hs : HashedIsStoredTop E target s) (resp : HttpResponse)
    (hdone : (retryLoop E as s).1 = LoopExit.done resp) :
    ∃ h, (retryLoop E as s).2.ds.fhandle = some h
      ∧ (retryLoop E as s).2.ds.hash_type = sessionHashType target
      ∧ (retryLoop E as s).2.ds.hasher = (E.hasher (sessionHashType target)).update
          (E.hasher (sessionHashType target)).init (h.base ++ h.written) := by
  have key := (retryLoop_invariant E (HashedIsStoredTop E target) (HashedIsStored E target)
    ?_ ?_ ?_ ?_ ?_ ?_ ?_ as s hs).2 resp hdone
  · obtain ⟨⟨bytes, hty, hh, hcase⟩, hretry⟩ := key
    rcases hcase with ⟨h, hfh, hb, _⟩ | ⟨_, _, hrt⟩
    · exact ⟨h, hfh, hty, by rw [hh, hb]⟩
    · rw [hretry] at hrt; cases hrt
  · -- requests served during checkPause
    intro t reqs ht
    have hrt := (applyCtl_fetcher reqs t.fetcher).1
    rcases ht with ⟨bytes, hty, hh, hcase⟩ | ⟨h, hty, hh, hfh, hw, hb, hr⟩
    · left
      refine ⟨bytes, hty, hh, ?_⟩
      rcases hcase with ⟨h, hfh, hb, hr⟩ | ⟨hfh, hst, hr⟩
      · exact Or.inl ⟨h, hfh, hb, by simpa [hrt] using hr⟩
      · exact Or.inr ⟨hfh, hst, by simpa [hrt] using hr⟩
    · right
      exact ⟨h, hty, hh, hfh, hw, hb, by simpa [hrt] using hr⟩
  · -- the handle is reopened
    intro t ht hr
    rcases ht with ⟨bytes, hty, hh, hcase⟩ | ⟨h, hty, hh, hfh, hw, hb, _⟩
    · rcases hcase with ⟨h, _, _, hr'⟩ | ⟨_, hst, _⟩
      · rw [hr] at hr'; cases hr'
      · exact ⟨bytes, hty, hh, Or.inl ⟨openTargetFile t.storage, rfl,
          by simp [openTargetFile, hst], rfl⟩⟩
    · exact ⟨t.storage.getD [], hty, hh, Or.inl ⟨openTargetFile t.storage, rfl,
        by simp [openTargetFile], rfl⟩⟩
  · -- no retry pending
    intro t ht hr
    rcases ht with ht | ⟨h, _, _, _, _, _, hr'⟩
    · exact ht
    · rw [hr] at hr'; cases hr'
  · intro t url off ht; exact ht
  · -- requests served before a handler call
    intro t reqs ht
    have hrt := (applyCtl_fetcher reqs t.fetcher).1
    obtain ⟨bytes, hty, hh, hcase⟩ := ht
    refine ⟨bytes, hty, hh, ?_⟩
    rcases hcase with ⟨h, hfh, hb, hr⟩ | ⟨hfh, hst, hr⟩
    · exact Or.inl ⟨h, hfh, hb, by simpa [hrt] using hr⟩
    · exact Or.inr ⟨hfh, hst, by simpa [hrt] using hr⟩
  · intro t c r ht hr
    exact HashedIsStored_step E target hlaw t c r ht hr
  · intro t ht _; exact Or.inl ht

/-- C1, as stated, fails on both success exits. On the shortcut exit the stored file
only has to have the declared length: four stored bytes with an odd sum make the
call return true although their digest matches no declared hash. Such a file gets
into storage through the fetcher itself: a first call in which a pause is granted
at the last chunk commits the four bytes unverified and, the retry failing,
returns false; the next call returns true. On the commit exit the length of what
was written is not compared with the declared length: the transport delivers two
bytes whose digest matches, succeeds, and the call returns true with two bytes
stored for a target declared four bytes long. -/
theorem accepted_without_full_check :
    ((fetchVerifyTarget demoEnv demoTarget emptyScript demoFetcher (some [1, 1, 1, 2])).status
        = Status.returned true
      ∧ (fetchVerifyTarget demoEnv demoTarget emptyScript demoFetcher (some [1, 1, 1, 2])).storage
        = some [1, 1, 1, 2]
      ∧ demoTarget.MatchWith
          { type := HashType.kSha256, hash := demoHasher.digest [1, 1, 1, 2] } = false)
    ∧ ((fetchVerifyTarget demoEnv demoTarget pausedAtLastChunk demoFetcher none).status
        = Status.returned false
      ∧ (fetchVerifyTarget demoEnv demoTarget pausedAtLastChunk demoFetcher none).storage
        = some [1, 1, 1, 2]
      ∧ (fetchVerifyTarget demoEnv demoTarget emptyScript
          (fetchVerifyTarget demoEnv demoTarget pausedAtLastChunk demoFetcher none).fetcher
          (fetchVerifyTarget demoEnv demoTarget pausedAtLastChunk demoFetcher none).storage).status
        = Status.returned true)
    ∧ ((fetchVerifyTarget demoEnv demoTarget (oneAttempt [plainChunk [1, 1]]) demoFetcher
          none).status = Status.returned true
      ∧ (fetchVerifyTarget demoEnv demoTarget (oneAttempt [plainChunk [1, 1]]) demoFetcher
          none).storage = some [1, 1]
      ∧ ([1, 1] : List Byte).length ≠ demoTarget.length) := by
  decide

/-- C1 (amended): for every discrete-file target and every behaviour of storage
writes, transport and controller thread, if `fetchVerifyTarget` returns true then
either it took the shortcut, storage is untouched and holds a file of exactly the
declared length (its digest is not examined), or it ended with the final commit
and the bytes then held in storage have a digest that matches one of the declared
hashes (their number is not compared with the declared length). The hashers are
assumed to satisfy the streaming contract. -/
theorem returned_true_exits {σ : Type} (E : Env σ) (target : Target) (script : Script)
    (f : Fetcher) (st : Storage)
    (hlaw : ∀ ty, (E.hasher ty).Lawful) (hfile : target.IsOstree = false)
    (htrue : (fetchVerifyTarget E target script f st).status = Status.returned true) :
    (∃ stored, st = some stored ∧ stored.length = target.length
        ∧ (fetchVerifyTarget E target script f st).storage = some stored
        ∧ (fetchVerifyTarget E target script f st).trace = [Action.checkTargetFile])
    ∨ (∃ bytes, (fetchVerifyTarget E target script f st).storage = some bytes
        ∧ target.MatchWith
            { type := sessionHashType target,
              hash := (E.hasher (sessionHashType target)).digest bytes } = true
        ∧ (fetchVerifyTarget E target script f st).trace.getLast? = some Action.wcommit) := by
  by_cases hhash : target.hashes = []
  · simp [fetchVerifyTarget, hfile, hhash] at htrue
  · have hne : target.hashes.isEmpty = false := by
      cases h : target.hashes with
      | nil => exact absurd h hhash
      | cons a l => rfl
    by_cases hlen : checkTargetFile st = some target.length
    · left
      cases st with
      | none => simp [checkTargetFile] at hlen
      | some stored =>
        refine ⟨stored, rfl, by simpa [checkTargetFile] using hlen, ?_, ?_⟩ <;>
          simp [fetchVerifyTarget, hfile, hne, hlen]
    · right
      rw [fetchVerifyTarget_download E target script f st hfile hhash hlen] at htrue ⊢
      have hinv := retryLoop_hashed E target hlaw script.attempts (startState E target f st)
        (HashedIsStoredTop_start E target hlaw f st)
      generalize retryLoop E script.attempts (startState E target f st) = R at htrue hinv ⊢
      rcases R with ⟨e, s1⟩
      cases e with
      | pending => simp [loopOutcome] at htrue
      | undefined => simp [loopOutcome] at htrue
      | done resp =>
        obtain ⟨h, hfh, hty, hh⟩ := hinv resp rfl
        simp only at hfh hty hh
        simp only [loopOutcome, finishDownload, hfh, hty, hh] at htrue ⊢
        by_cases hok : resp.isOk = true
        · by_cases hm : target.MatchWith
              { type := sessionHashType target,
                hash := (E.hasher (sessionHashType target)).getHexDigest
                  ((E.hasher (sessionHashType target)).update
                    (E.hasher (sessionHashType target)).init (h.base ++ h.written)) } = true
          · refine ⟨h.base ++ h.written, ?_, hm, ?_⟩
            · simp [hok, hm, StorageTargetWHandle.wcommit]
            · simp [hok, hm]
          · simp [hok, hm] at htrue
        · simp [hok] at htrue

/-- C1 (amended) at a complete download of the four-byte target: four bytes with an
even sum are delivered, the call returns true and the stored bytes match. -/
theorem returned_true_exits_witness :
    (fetchVerifyTarget demoEnv demoTarget (oneAttempt [plainChunk [1, 1, 1, 1]])
        demoFetcher none).storage = some [1, 1, 1, 1]
    ∧ demoTarget.MatchWith
        { type := sessionHashType demoTarget,
          hash := (demoEnv.hasher (sessionHashType demoTarget)).digest [1, 1, 1, 1] } = true := by
  have hst : (fetchVerifyTarget demoEnv demoTarget (oneAttempt [plainChunk [1, 1, 1, 1]])
      demoFetcher none).storage = some [1, 1, 1, 1] := by decide
  rcases returned_true_exits demoEnv demoTarget (oneAttempt [plainChunk [1, 1, 1, 1]])
      demoFetcher none (fun _ => demoHasher_lawful) rfl (by decide) with
    ⟨stored, h, _⟩ | ⟨bytes, hb, hm, _⟩
  · cases h
  · rw [hst] at hb
    obtain rfl := Option.some.inj hb
    exact ⟨hst, hm⟩

/-! ## Oversized chunks after earlier iterations of the retry loop -/

end Uptane
